import Mathlib

/-!
Verification of the core of the `problog` repository (files `problog/core.py` and
`problog/evaluator.py`) against its natural-language specification.  Python
classes and methods are shallowly embedded as Lean definitions: the mutable
weight cache of `SimpleNNFEvaluator` becomes an explicit function
`Nat → Option (α × α)` threaded through the operations, Python `float`
probability values are modelled as rationals `ℚ`, fallible or possibly
diverging computations return `Option`/`Except`, and the unbounded recursion of
`getWeight`/`_calculateWeight` is made total with an explicit fuel argument
(`none` models nontermination; enough fuel is always available on acyclic
circuits).
-/

set_option autoImplicit false

namespace ProbLog

/-- The `Semiring` interface of `evaluator.py` (class `Semiring`): identity
elements, sum, product, complement and normalization, over a carrier `α`. -/
structure SemiringOps (α : Type) where
  one : α
  zero : α
  plus : α → α → α
  times : α → α → α
  negate : α → α
  normalize : α → α → α

/-- Source `SemiringProbability` from `evaluator.py`.  Python floats are modelled as
rationals; `plus` is addition, `times` multiplication, `negate a = 1 - a`,
`normalize a Z = a / Z`. -/
def semiringProbability : SemiringOps ℚ where
  one := 1
  zero := 0
  plus a b := a + b
  times a b := a * b
  negate a := 1 - a
  normalize a Z := a / Z

/-- Source `SemiringSymbolic.plus` from `evaluator.py`: textual simplification against
the literal `"0"`, otherwise the string `"(a + b)"`. -/
def symPlus (a b : String) : String :=
  if a = "0" then b
  else if b = "0" then a
  else "(" ++ a ++ " + " ++ b ++ ")"

/-- Source `SemiringSymbolic.times` from `evaluator.py`. -/
def symTimes (a b : String) : String :=
  if a = "0" ∨ b = "0" then "0"
  else if a = "1" then b
  else if b = "1" then a
  else a ++ "*" ++ b

/-- Source `SemiringSymbolic.negate` from `evaluator.py`. -/
def symNegate (a : String) : String :=
  if a = "0" then "1"
  else if a = "1" then "0"
  else "(1-" ++ a ++ ")"

/-- Source `SemiringSymbolic.normalize` from `evaluator.py`: emits a quotient string
unless the denominator is literally `"1"`. -/
def symNormalize (a Z : String) : String :=
  if Z = "1" then a else a ++ " / " ++ Z

/-- Source `SemiringSymbolic` from `evaluator.py`: values are algebraic expression
strings. -/
def semiringSymbolic : SemiringOps String where
  one := "1"
  zero := "0"
  plus := symPlus
  times := symTimes
  negate := symNegate
  normalize := symNormalize

/-- A node of the circuit (`LogicFormula`/`NNF` node records): an atom with an
identifier and an optional weight (`none` models the `True` marker standing for
"unweighted", which the evaluator reads as the algebra's unit), a conjunction
with signed child references, or a disjunction with signed child references. -/
inductive NNode (α : Type) where
  | atom (ident : Nat) (weight : Option α)
  | conj (children : List Int)
  | disj (children : List Int)
deriving DecidableEq

/-- A circuit is the ordered list of its node records; node ids are 1-based and
`nnf.length` is the root id, exactly as `len(self.__nnf)` in the evaluator. -/
def getNode {α : Type} (nnf : List (NNode α)) (key : Nat) : Option (NNode α) :=
  nnf.get? (key - 1)

/-- The evaluator's weight cache `self.__probs`: a partial map from node id to
a (positive weight, negative weight) pair. -/
def Cache (α : Type) : Type := Nat → Option (α × α)

/-- Source `SimpleNNFEvaluator.setWeight`: `self.__probs[index] = (pos, neg)`. -/
def setWeight {α : Type} (probs : Cache α) (index : Nat) (pos neg : α) : Cache α :=
  fun m => if m = index then some (pos, neg) else probs m

/-- Sequencing a list of optional values: the Python list comprehension
`[ self.getWeight(c) for c in node.children ]` evaluates every element and
propagates failure. -/
def seqOption {α : Type} : List (Option α) → Option (List α)
  | [] => some []
  | x :: xs =>
    match x with
    | none => none
    | some v => (seqOption xs).map (fun vs => v :: vs)

/-- Source `SimpleNNFEvaluator.getWeight` together with the inlined body of
`SimpleNNFEvaluator._calculateWeight`.  `index = some 0` is the "true" sentinel
(returns `one`), `index = none` is the Python `None` "false" sentinel (returns
`zero`); otherwise the cache entry for `abs index` is consulted and, on a miss,
the weight is recomputed from the node structure: an AND node folds `times`
over its children's weights starting from `one`, an OR node folds `plus`
starting from `zero`.  A cache miss on an atom node (or an out-of-range id)
models the source's assertion failure and yields `none`.  `fuel` only bounds
the recursion depth (Python recurses unboundedly); each recomputation step
consumes one unit. -/
def getWeight {α : Type} (sr : SemiringOps α) (nnf : List (NNode α)) (probs : Cache α) :
    Nat → Option Int → Option α
  | _, some 0 => some sr.one
  | _, none => some sr.zero
  | fuel, some i =>
    match probs i.natAbs with
    | some pn => some (if i < 0 then pn.2 else pn.1)
    | none =>
      match fuel with
      | 0 => none
      | f + 1 =>
        (match getNode nnf i.natAbs with
         | some (NNode.conj cs) =>
           (seqOption (cs.map (fun c => getWeight sr nnf probs f (some c)))).map
             (fun (ps : List α) => ps.foldl sr.times sr.one)
         | some (NNode.disj cs) =>
           (seqOption (cs.map (fun c => getWeight sr nnf probs f (some c)))).map
             (fun (ps : List α) => ps.foldl sr.plus sr.zero)
         | _ => none).map
          (fun p => if i < 0 then sr.negate p else p)

/-- Source `SimpleNNFEvaluator._calculateWeight` as a standalone definition (the same
computation the cache-miss branch of `getWeight` performs). -/
def calculateWeight {α : Type} (sr : SemiringOps α) (nnf : List (NNode α)) (probs : Cache α)
    (fuel : Nat) (key : Nat) : Option α :=
  match getNode nnf key with
  | some (NNode.conj cs) =>
    (seqOption (cs.map (fun c => getWeight sr nnf probs fuel (some c)))).map
      (fun (ps : List α) => ps.foldl sr.times sr.one)
  | some (NNode.disj cs) =>
    (seqOption (cs.map (fun c => getWeight sr nnf probs fuel (some c)))).map
      (fun (ps : List α) => ps.foldl sr.plus sr.zero)
  | _ => none

/-- Modelled from the spec: `LogicFormula.extractWeights` is declared in
`problog/logic/formula.py`, which is not under `src/`.  Per §4.5 of the spec,
`initialize` "seeds [the cache] with every atom's declared weight (as a
(positive, negative) pair via complement)", and per §3 an unweighted atom takes
the algebra's unit value; entries are keyed by node id, which is how the
evaluator looks them up. -/
def extractWeights {α : Type} (sr : SemiringOps α) (nnf : List (NNode α)) : Cache α :=
  fun i =>
    match getNode nnf i with
    | some (NNode.atom _ w) =>
      let p := w.getD sr.one
      some (p, sr.negate p)
    | _ => none

/-- Source `SimpleNNFEvaluator.setEvidence`: pins `index` to `(one, zero)` when the
evidence is positive and to `(zero, one)` when negative. -/
def setEvidence {α : Type} (sr : SemiringOps α) (probs : Cache α) (index : Nat)
    (value : Bool) : Cache α :=
  if value then setWeight probs index sr.one sr.zero
  else setWeight probs index sr.zero sr.one

/-- Source `SimpleNNFEvaluator.getZ`: the weight of the root node `len(self.__nnf)`. -/
def getZ {α : Type} (sr : SemiringOps α) (nnf : List (NNode α)) (probs : Cache α)
    (fuel : Nat) : Option α :=
  getWeight sr nnf probs fuel (some (nnf.length : Int))

/-- Source `SimpleNNFEvaluator.initialize` (the name `initialize` itself is not usable
in this development): clears and reseeds the cache from the atom weights, pins
every evidence reference `ev` via `setEvidence(abs(ev), ev > 0)`, and computes
the normalization constant `Z = getZ()`.  Returns the seeded cache together
with `Z`; `none` models nontermination of the recursive weight computation. -/
def initEvaluator {α : Type} (sr : SemiringOps α) (nnf : List (NNode α))
    (evidence : List Int) (fuel : Nat) : Option (Cache α × α) :=
  let probs := evidence.foldl
    (fun pr ev => setEvidence sr pr ev.natAbs (decide (0 < ev))) (extractWeights sr nnf)
  (getZ sr nnf probs fuel).map (fun Z => (probs, Z))

/-- Source `SimpleNNFEvaluator.setValue`: pins `index` to `(getWeight(index), zero)`
when `value` is true and to `(zero, getWeight(-index))` when false.  Note that
the retained component is the atom's current weight, not the algebra's unit. -/
def setValue {α : Type} (sr : SemiringOps α) (nnf : List (NNode α)) (probs : Cache α)
    (fuel : Nat) (index : Nat) (value : Bool) : Option (Cache α) :=
  if value then
    (getWeight sr nnf probs fuel (some (index : Int))).map
      (fun pos => setWeight probs index pos sr.zero)
  else
    (getWeight sr nnf probs fuel (some (-(index : Int)))).map
      (fun neg => setWeight probs index sr.zero neg)

/-- Source `SimpleNNFEvaluator.resetValue`: plain `setWeight`. -/
def resetValue {α : Type} (probs : Cache α) (index : Nat) (pos neg : α) : Cache α :=
  setWeight probs index pos neg

/-- Source `SimpleNNFEvaluator.evaluate`: reads `p = getWeight(abs(node))` and
`n = getWeight(-abs(node))`, pins the queried node with
`setValue(abs(node), node > 0)`, recomputes the root weight, restores the
`(p, n)` pair with `resetValue`, and returns `normalize(result, Z)`.  The
returned pair is the result value together with the evaluator's cache as
`evaluate` leaves it. -/
def evaluate {α : Type} (sr : SemiringOps α) (nnf : List (NNode α)) (fuel : Nat)
    (Z : α) (probs : Cache α) (node : Int) : Option (α × Cache α) := do
  let p ← getWeight sr nnf probs fuel (some (node.natAbs : Int))
  let n ← getWeight sr nnf probs fuel (some (-(node.natAbs : Int)))
  let probs1 ← setValue sr nnf probs fuel node.natAbs (decide (0 < node))
  let result ← getWeight sr nnf probs1 fuel (some (nnf.length : Int))
  pure (sr.normalize result Z, resetValue probs1 node.natAbs p n)

/-- The `evaluate` procedure exactly as the spec words it, for comparison with
the source's `evaluate`: identical except that the queried atom's cache entry
is temporarily pinned to the unit/annihilator pair oriented by the query's
sign — `(one, zero)` for a positive query, `(zero, one)` for a negative one —
instead of retaining the atom's own weight. -/
def evaluateSpecWorded {α : Type} (sr : SemiringOps α) (nnf : List (NNode α)) (fuel : Nat)
    (Z : α) (probs : Cache α) (node : Int) : Option (α × Cache α) := do
  let p ← getWeight sr nnf probs fuel (some (node.natAbs : Int))
  let n ← getWeight sr nnf probs fuel (some (-(node.natAbs : Int)))
  let probs1 :=
    if 0 < node then setWeight probs node.natAbs sr.one sr.zero
    else setWeight probs node.natAbs sr.zero sr.one
  let result ← getWeight sr nnf probs1 fuel (some (nnf.length : Int))
  pure (sr.normalize result Z, resetValue probs1 node.natAbs p n)

/-! ### The CNF encoder (`CNF.createFrom`) -/

/-- The result of `CNF.createFrom`: the header data `p cnf atom_count
clause_count` plus the emitted clause lines, each clause modelled as its list
of signed literals (the source renders them as strings ending in `" 0"`).
A constraint is modelled by the clause list its `encodeCNF()` returns
(`problog/logic/formula.py` is not under `src/`; per §3 of the spec a
constraint "lower[s] itself to a list of disjunctive clauses, each clause a
list of signed integer literals"). -/
structure CNFData where
  atomCount : Nat
  clauseCount : Nat
  clauses : List (List Int)
deriving DecidableEq

/-- The loop body of `CNF.createFrom` for the node with 1-based id `index`:
an AND node appends the clause `index :: children.map (-·)` followed by one
clause `[-index, x]` per child `x`; an OR node appends the clause
`-index :: children` followed by one clause `[index, -x]` per child; an atom
appends nothing (the `ValueError` arm is unreachable over the closed node
type). -/
def nodeClauses {α : Type} (index : Nat) : NNode α → List (List Int)
  | NNode.conj cs => ((index : Int) :: cs.map (fun x => -x)) :: cs.map (fun x => [-(index : Int), x])
  | NNode.disj cs => ((-(index : Int)) :: cs) :: cs.map (fun x => [(index : Int), -x])
  | NNode.atom _ _ => []

/-- Source `CNF.createFrom`: iterate over the enumerated formula appending each
node's clauses (`nodeClauses` is the loop body), then append every
constraint's lowered clauses; the header records `len(formula)` and the total
number of emitted lines. -/
def cnfCreateFrom {α : Type} (formula : List (NNode α))
    (constraints : List (List (List Int))) : CNFData :=
  let lines1 := formula.enum.foldl
    (fun (lines : List (List Int)) p => lines ++ nodeClauses (p.1 + 1) p.2) []
  let lines2 := constraints.foldl (fun lines c => lines ++ c) lines1
  { atomCount := formula.length, clauseCount := lines2.length, clauses := lines2 }

/-- All node-derived clauses, in circuit construction order. -/
def nodeDerivedClauses {α : Type} (formula : List (NNode α)) : List (List Int) :=
  formula.enum.flatMap (fun p => nodeClauses (p.1 + 1) p.2)

/-- All constraint-derived clauses, in constraint order. -/
def constraintDerivedClauses (constraints : List (List (List Int))) : List (List Int) :=
  constraints.flatMap id

/-- The clause ordering exactly as the spec words it, for comparison with
`cnfCreateFrom`: first every AND node's clauses, then every OR node's clauses,
then the constraint-derived clauses, each group in circuit construction
order. -/
def specWordedClauseOrder {α : Type} (formula : List (NNode α))
    (constraints : List (List (List Int))) : List (List Int) :=
  (formula.enum.flatMap (fun p =>
    match p.2 with
    | NNode.conj _ => nodeClauses (p.1 + 1) p.2
    | _ => [])) ++
  (formula.enum.flatMap (fun p =>
    match p.2 with
    | NNode.disj _ => nodeClauses (p.1 + 1) p.2
    | _ => [])) ++
  constraintDerivedClauses constraints

/-! ### The compiled-circuit loader (`NNF._load_nnf`) -/

/-- One directive line of the compiled-circuit text, already tokenized: the
`nnf` header, an `L <signed_literal>` leaf line, an `A <count> <refs...>` line
(children given by directive-line positions `line[2:]`), an
`O <tie> <count> <refs...>` line (children `line[3:]`), or an unrecognized
line (which the source merely reports and skips). -/
inductive NNFLine where
  | header (nodeCount edgeCount atomCount : Nat)
  | lit (l : Int)
  | andLine (children : List Nat)
  | orLine (tie : Nat) (children : List Nat)
  | unknown

/-- The state `_load_nnf` threads along its line loop: the circuit built so
far, the re-registered `(name, signed node reference, label)` entries, the
`line2node` map from directive-line position to the produced node reference,
the `rename` map from original atom id to new node id, and the directive-line
counter `lnum`.  `addAtom`, `addAnd`, `addOr` and `addName` live in
`problog/logic/formula.py`, which is not under `src/`; they are modelled from
the spec (§4.3): registering a node appends it and returns the new 1-based
node id, and `addName` records a `(name, reference, label)` entry. -/
structure LoadState (α : Type) where
  nodes : List (NNode α)
  names : List (String × Int × String)
  line2node : Nat → Option Int
  rename : Nat → Option Int
  lnum : Nat

/-- The empty state `_load_nnf` starts from. -/
def initLoadState (α : Type) : LoadState α :=
  { nodes := [], names := [], line2node := fun _ => none, rename := fun _ => none, lnum := 0 }

/-- The inverted names table `names_inv` of `_load_nnf`: the `(name, label)`
pairs the original table associates with the node reference `node` (keys are
the table's signed references, looked up with the positive atom id). -/
def namesInv (cnfNames : List (String × Int × String)) (node : Int) : List (String × String) :=
  cnfNames.filterMap (fun t => if t.2.1 = node then some (t.1, t.2.2) else none)

/-- One iteration of the `_load_nnf` line loop.  `weights` is the original
circuit's weight map (`cnf.getWeights()`, absent ids meaning "unweighted");
`cnfNames` is `cnf.getNamesWithLabel()`.  For an `L` line with literal `l`:
look up the weight of `abs l`, append the new atom (its reference `node` is
the new node id), record it in `rename`, negate `node` when `l < 0`, store it
in `line2node`, and re-register each `(name, label)` pair of `names_inv[abs l]`
with `addName(name, -node, label)` when `l < 0` and `addName(name, node,
label)` otherwise.  `A`/`O` lines resolve their children through `line2node`
(`none` models the `KeyError` on an undefined line position).  The `nnf`
header and unrecognized lines change nothing and do not advance `lnum`. -/
def loadLine {α : Type} (weights : Nat → Option α) (cnfNames : List (String × Int × String))
    (st : LoadState α) : NNFLine → Option (LoadState α)
  | NNFLine.header _ _ _ => some st
  | NNFLine.unknown => some st
  | NNFLine.lit l =>
    let prob := weights l.natAbs
    let newId : Int := ((st.nodes.length + 1 : Nat) : Int)
    let node : Int := if l < 0 then -newId else newId
    some
      { nodes := st.nodes ++ [NNode.atom l.natAbs prob]
        names := st.names ++ (namesInv cnfNames (l.natAbs : Int)).map
          (fun p => (p.1, if l < 0 then -node else node, p.2))
        line2node := fun m => if m = st.lnum then some node else st.line2node m
        rename := fun m => if m = l.natAbs then some newId else st.rename m
        lnum := st.lnum + 1 }
  | NNFLine.andLine cs =>
    (seqOption (cs.map st.line2node)).map (fun children =>
      { st with
        nodes := st.nodes ++ [NNode.conj children]
        line2node := fun m =>
          if m = st.lnum then some ((st.nodes.length + 1 : Nat) : Int) else st.line2node m
        lnum := st.lnum + 1 })
  | NNFLine.orLine _ cs =>
    (seqOption (cs.map st.line2node)).map (fun children =>
      { st with
        nodes := st.nodes ++ [NNode.disj children]
        line2node := fun m =>
          if m = st.lnum then some ((st.nodes.length + 1 : Nat) : Int) else st.line2node m
        lnum := st.lnum + 1 })

/-- Source `NNF._load_nnf` over an already-tokenized line list (the re-emission of the
original constraints through `c.copy(rename)` is outside the claims and not
modelled; the `rename` substitution map it would use is built in the state). -/
def loadNNF {α : Type} (weights : Nat → Option α) (cnfNames : List (String × Int × String))
    (lines : List NNFLine) : Option (LoadState α) :=
  lines.foldlM (loadLine weights cnfNames) (initLoadState α)

/-! ### The external-compiler retry loop (`NNF._compile`) -/

/-- The retry loop of `NNF._compile`, abstracted over the external process:
`outcome i = true` means the `i`-th invocation (0-based) of the compiler exits
with status 0.  Mirrors `attempts_left = 10; while attempts_left and not
success: try: call; success = True; except: attempts_left -= 1; if
attempts_left == 0: raise`.  `Except.ok n` means the loop finished after `n`
invocations; `Except.error n` means the `CalledProcessError` was re-raised
after `n` invocations. -/
def compileLoop (outcome : Nat → Bool) : Nat → Nat → Except Nat Nat
  | 0, done => Except.ok done
  | aleft + 1, done =>
    if outcome done then Except.ok (done + 1)
    else if aleft = 0 then Except.error (done + 1)
    else compileLoop outcome aleft (done + 1)

/-- Source `NNF._compile`'s process protocol: start the retry loop with
`attempts_left = 10`. -/
def nnfCompile (outcome : Nat → Bool) : Except Nat Nat :=
  compileLoop outcome 10 0

/-- Source `NNF._compile` composed with loading: on loop success the compiled circuit
loaded by `_load_nnf` (here an abstract `loaded` value) is returned; on
exhaustion the process failure propagates. -/
def compileAndLoad {β : Type} (outcome : Nat → Bool) (loaded : β) : Except Nat β :=
  match nnfCompile outcome with
  | Except.ok _ => Except.ok loaded
  | Except.error n => Except.error n

/-! ### The top-level query API (`NNF.getEvaluator` / `NNF.evaluate`) -/

/-- Modelled from the spec: `LogicFormula.getNames(label)` is declared in
`problog/logic/formula.py`, which is not under `src/`.  Per §3 the names table
maps labels to `(symbolic-name, signed-node-reference)` pairs; `getNames`
returns the pairs carrying the given label. -/
def getNames (names : List (String × Int × String)) (label : String) : List (String × Int) :=
  names.filterMap (fun t => if t.2.2 = label then some (t.1, t.2.1) else none)

/-- The evidence list `NNF.getEvaluator` accumulates: `node_ev` for every
`('evidence', node_ev)` name and `-node_ev` for every `('-evidence', node_ev)`
name. -/
def evidenceRefs (names : List (String × Int × String)) : List Int :=
  (getNames names "evidence").map Prod.snd ++
    (getNames names "-evidence").map (fun p => -p.2)

/-- The float literal `1e-6` of `NNF.evaluate`, modelled as a rational. -/
def epsilonQ : ℚ := 1 / 1000000

/-- The two result shapes of `NNF.evaluate`: the per-query result table when
called without an index, or a single value. -/
inductive EvalResult where
  | table (rs : List (String × ℚ))
  | single (v : ℚ)
deriving DecidableEq

/-- Source `NNF.evaluate` (with `NNF.getEvaluator` inlined), for the default
probability semiring: build the evaluator, add the evidence, propagate, and
then either sweep all query-labeled names (reporting values below `1e-6` as
exactly `0`) or — for an explicit index — execute `return
evaluator.evaluate(node)`, which raises `UnboundLocalError` because the local
variable `node` is never assigned in that branch (the parameter is named
`index`). -/
def nnfEvaluate (nnf : List (NNode ℚ)) (names : List (String × Int × String))
    (fuel : Nat) (index : Option Int) : Except String EvalResult :=
  match initEvaluator semiringProbability nnf (evidenceRefs names) fuel with
  | none => Except.error "nontermination"
  | some (probs, Z) =>
    match index with
    | none =>
      match (getNames names "query").foldlM
          (fun (acc : List (String × ℚ) × Cache ℚ) q =>
            (evaluate semiringProbability nnf fuel Z acc.2 q.2).map
              (fun r => (acc.1 ++ [(q.1, if r.1 < epsilonQ then 0 else r.1)], r.2)))
          ([], probs) with
      | none => Except.error "nontermination"
      | some acc => Except.ok (EvalResult.table acc.1)
    | some _ => Except.error "UnboundLocalError: local variable node referenced before assignment"

/-! ### The conversion registry (`core.py`) -/

/-- The transformation registry of `ProbLog` in `core.py`, abstracted over the
object and kind (class) universes: `isInstance` is Python's `isinstance`, and
`transformations k` is the list of `(source kind, action)` pairs registered
for target kind `k` (an action of `None` is representable). -/
structure ConvSystem (Obj Kind : Type) where
  isInstance : Obj → Kind → Bool
  transformations : Kind → List (Kind × Option (Obj → Kind → Obj))

/-- Source `ProbLog.findPaths`: if `src` is already an instance of `target`, yield the
single-element path `(target,)`; otherwise recurse through the registered
transformations whose source kind is not already on the stack, appending
`(action, target)` to each recursive path.  A path is modelled as its head
kind plus the list of `(action, kind)` steps; `fuel` bounds the recursion
(Python's generator recursion has no such bound). -/
def findPaths {Obj Kind : Type} [DecidableEq Kind] (sys : ConvSystem Obj Kind) :
    Nat → Obj → Kind → List Kind → List (Kind × List (Option (Obj → Kind → Obj) × Kind))
  | fuel, src, target, stack =>
    if sys.isInstance src target then [(target, [])]
    else
      match fuel with
      | 0 => []
      | f + 1 =>
        (sys.transformations target).flatMap (fun sa =>
          if sa.1 ∈ stack then []
          else (findPaths sys f src sa.1 (stack ++ [sa.1])).map
            (fun p => (p.1, p.2 ++ [(sa.2, target)])))

/-- The step loop of `ProbLog.convert`: `while path: next_obj =
path[0](current_obj, path[1]()); path = path[2:]`.  An action of `None` makes
Python call `None(...)`, a `TypeError` (the source's `path[1] != None` test
inspects the kind, which is never `None`). -/
def runPath {Obj Kind : Type} :
    List (Option (Obj → Kind → Obj) × Kind) → Obj → Except String Obj
  | [], cur => Except.ok cur
  | (action, k) :: rest, cur =>
    match action with
    | some f => runPath rest (f cur k)
    | none => Except.error "TypeError: NoneType object is not callable"

/-- Source `ProbLog.convert`: take the first path `findPaths` yields, drop its leading
kind, and run the `(action, kind)` steps starting from `src`; with no path at
all, raise `ProbLogError`. -/
def convert {Obj Kind : Type} [DecidableEq Kind] (sys : ConvSystem Obj Kind) (fuel : Nat)
    (src : Obj) (target : Kind) : Except String Obj :=
  match findPaths sys fuel src target [] with
  | [] => Except.error "ProbLogError: no conversion strategy found"
  | p :: _ => runPath p.2 src

/-- The argument universe of `NNF.createFrom`: a logic program (opaque), a
plain logic formula, a CNF, or an already-compiled NNF. -/
inductive Convertible (α : Type) where
  | logicProgram (pid : Nat)
  | logicFormulaObj (nodes : List (NNode α)) (constraints : List (List (List Int)))
  | cnfObj (c : CNFData)
  | nnfObj (nodes : List (NNode α))

/-- Source `NNF.createFrom`: ground a logic program first (`ground` is outside the
analyzed source, modelled as an opaque function `groundFn`), lower a
non-CNF formula through `CNF.createFrom`, compile a CNF through `_compile`
(abstracted as `compileFn`, since it shells out to the external compiler), and
return an NNF argument itself, unchanged. -/
def nnfCreateFrom {α : Type} (groundFn : Nat → List (NNode α) × List (List (List Int)))
    (compileFn : CNFData → List (NNode α)) : Convertible α → List (NNode α)
  | Convertible.logicProgram p =>
    let g := groundFn p
    compileFn (cnfCreateFrom g.1 g.2)
  | Convertible.logicFormulaObj ns cs => compileFn (cnfCreateFrom ns cs)
  | Convertible.cnfObj c => compileFn c
  | Convertible.nnfObj ns => ns

/-! ### Concrete circuits used by the claims -/

/-- A one-atom circuit with probability weight `1/2`; its root is the atom. -/
def exSingleAtom : List (NNode ℚ) := [NNode.atom 1 (some (1/2))]

/-- The spec's §8 test circuit: two atoms with probability weights `0.5 = 1/2`
and `0.4 = 2/5` and an AND node over both as the root. -/
def exAndCircuit : List (NNode ℚ) :=
  [NNode.atom 1 (some (1/2)), NNode.atom 2 (some (2/5)), NNode.conj [1, 2]]

/-- A circuit whose OR node precedes its AND node in construction order. -/
def exOrBeforeAnd : List (NNode ℚ) :=
  [NNode.atom 1 (some (1/2)), NNode.disj [1], NNode.conj [1, 2]]

/-- An original names table binding name `"q"` with label `"query"` to the
original atom id 5. -/
def exCnfNames : List (String × Int × String) := [("q", 5, "query")]

/-- The seeded cache of an initialized evaluator over `exSingleAtom`. -/
def exSingleCache : Cache ℚ := extractWeights semiringProbability exSingleAtom

/-- The seeded cache of an initialized evaluator over `exAndCircuit`. -/
def exAndCache : Cache ℚ := extractWeights semiringProbability exAndCircuit

/-- A conversion system over naturals in which every object is an instance of
the (unique) target kind and no transformations are registered. -/
def trivialConvSystem : ConvSystem Nat Unit :=
  { isInstance := fun _ _ => true, transformations := fun _ => [] }

/-! ## Helper lemmas -/

/-- Appending through a left fold is concatenation with the flattened map. -/
theorem foldl_append_general {β γ : Type} (f : β → List γ) :
    ∀ (l : List β) (acc : List γ), List.foldl (fun a x => a ++ f x) acc l = acc ++ l.flatMap f := by
  intro l
  induction l with
  | nil => simp
  | cons x xs ih => intro acc; simp [ih]

/-- Appending each list of a list of lists is concatenation with its flattening. -/
theorem foldl_append_self {γ : Type} :
    ∀ (l : List (List γ)) (acc : List γ),
      List.foldl (fun a c => a ++ c) acc l = acc ++ l.flatMap id := by
  intro l
  induction l with
  | nil => simp
  | cons x xs ih => intro acc; simp [ih]

/-- The clause list `CNF.createFrom` builds is the node-derived clauses in
construction order followed by the constraint-derived clauses. -/
theorem cnfCreateFrom_clauses {α : Type} (formula : List (NNode α))
    (constraints : List (List (List Int))) :
    (cnfCreateFrom formula constraints).clauses =
      nodeDerivedClauses formula ++ constraintDerivedClauses constraints := by
  simp [cnfCreateFrom, nodeDerivedClauses, constraintDerivedClauses, foldl_append_general,
    foldl_append_self]

/-- Unfolding `evaluate` under the assumption that the two initial weight
reads succeed: it computes the root weight in the cache pinned at the queried
node with `(p, zero)` (positive query) or `(zero, n)` (negative query),
normalizes it by `Z`, and finally overwrites the queried node's entry with
`(p, n)`. -/
theorem evaluate_eq_pin_restore {α : Type} (sr : SemiringOps α) (nnf : List (NNode α))
    (fuel : Nat) (Z : α) (probs : Cache α) (node : Int) (p n : α)
    (hp : getWeight sr nnf probs fuel (some (node.natAbs : Int)) = some p)
    (hn : getWeight sr nnf probs fuel (some (-(node.natAbs : Int))) = some n) :
    evaluate sr nnf fuel Z probs node =
      (getWeight sr nnf
        (if 0 < node then setWeight probs node.natAbs p sr.zero
         else setWeight probs node.natAbs sr.zero n) fuel (some (nnf.length : Int))).map
        (fun result =>
          (sr.normalize result Z,
            setWeight
              (if 0 < node then setWeight probs node.natAbs p sr.zero
               else setWeight probs node.natAbs sr.zero n) node.natAbs p n)) := by
  simp only [Int.natCast_natAbs] at hp hn
  by_cases h : 0 < node
  · simp [evaluate, setValue, resetValue, h, hp, hn, Option.bind]
    cases getWeight sr nnf (setWeight probs node.natAbs p sr.zero) fuel
      (some (nnf.length : Int)) <;> rfl
  · simp [evaluate, setValue, resetValue, h, hp, hn, Option.bind]
    cases getWeight sr nnf (setWeight probs node.natAbs sr.zero n) fuel
      (some (nnf.length : Int)) <;> rfl

/-- The retry loop re-raises the process failure after exhausting all its
remaining attempts when every invocation fails. -/
theorem compileLoop_all_fail (o : Nat → Bool) (h : ∀ i, o i = false) :
    ∀ aleft done : Nat, 0 < aleft → compileLoop o aleft done = Except.error (done + aleft) := by
  intro aleft
  induction aleft with
  | zero => intro done h0; exact absurd h0 (lt_irrefl 0)
  | succ a ih =>
    intro done _
    rcases Nat.eq_zero_or_pos a with rfl | ha
    · simp [compileLoop, h done]
    · rw [compileLoop]
      simp only [h done, Bool.false_eq_true, if_false, Nat.pos_iff_ne_zero.mp ha, if_neg]
      rw [ih (done + 1) ha]
      congr 1
      omega

/-- The retry loop succeeds after `k + 1` further invocations when the next
`k` invocations fail, the one after succeeds, and enough attempts remain. -/
theorem compileLoop_fail_then_ok (o : Nat → Bool) :
    ∀ (k aleft done : Nat), k < aleft → (∀ i, i < k → o (done + i) = false) →
      o (done + k) = true → compileLoop o aleft done = Except.ok (done + k + 1) := by
  intro k
  induction k with
  | zero =>
    intro aleft done hk hfail hsucc
    obtain ⟨a, rfl⟩ : ∃ a, aleft = a + 1 := ⟨aleft - 1, by omega⟩
    simp only [Nat.add_zero] at hsucc
    simp [compileLoop, hsucc]
  | succ k ih =>
    intro aleft done hk hfail hsucc
    obtain ⟨a, rfl⟩ : ∃ a, aleft = a + 1 := ⟨aleft - 1, by omega⟩
    have h0 : o done = false := by simpa using hfail 0 (Nat.succ_pos k)
    have ha : ¬a = 0 := by omega
    rw [compileLoop]
    simp only [h0, Bool.false_eq_true, if_false, ha, if_neg]
    rw [ih a (done + 1) (by omega)
      (fun i hi => by
        have := hfail (i + 1) (by omega)
        rwa [show done + (i + 1) = done + 1 + i by omega] at this)
      (by rwa [show done + 1 + k = done + (k + 1) by omega])]
    congr 1
    omega

/-! ## Claim theorems -/

/-- Claim C1 (amended): for every initialized evaluator and query reference
`node` whose weights read back as `p = weight(+|node|)` and
`n = weight(-|node|)`, `evaluate` first reads `p` and `n`, then sets the cache
entry of `|node|` to `(p, annihilator)` if `node > 0` and to `(annihilator, n)`
if `node < 0` (the retained component is the node's current weight, not the
semiring unit), recomputes `result = weight(root)` in that pinned cache,
restores the entry to `(p, n)`, and returns `normalize(result, Z)`. -/
theorem evaluate_pin_uses_weight_pair {α : Type} (sr : SemiringOps α) (nnf : List (NNode α))
    (fuel : Nat) (Z : α) (probs : Cache α) (node : Int) (p n : α)
    (hp : getWeight sr nnf probs fuel (some (node.natAbs : Int)) = some p)
    (hn : getWeight sr nnf probs fuel (some (-(node.natAbs : Int))) = some n) :
    evaluate sr nnf fuel Z probs node =
      (getWeight sr nnf
        (if 0 < node then setWeight probs node.natAbs p sr.zero
         else setWeight probs node.natAbs sr.zero n) fuel (some (nnf.length : Int))).map
        (fun result =>
          (sr.normalize result Z,
            setWeight
              (if 0 < node then setWeight probs node.natAbs p sr.zero
               else setWeight probs node.natAbs sr.zero n) node.natAbs p n)) :=
  evaluate_eq_pin_restore sr nnf fuel Z probs node p n hp hn

/-- Witness for claim C1's theorem on the one-atom circuit with weight `1/2`,
queried positively at its root atom. -/
theorem evaluate_pin_uses_weight_pair_witness :
    (getWeight semiringProbability exSingleAtom exSingleCache 2
        (some (((1 : Int).natAbs : Nat) : Int)) = some (1/2 : ℚ) ∧
      getWeight semiringProbability exSingleAtom exSingleCache 2
        (some (-(((1 : Int).natAbs : Nat) : Int))) = some (1/2 : ℚ)) ∧
    evaluate semiringProbability exSingleAtom 2 (1/2) exSingleCache 1 =
      (getWeight semiringProbability exSingleAtom
        (if 0 < (1 : Int) then setWeight exSingleCache (1 : Int).natAbs (1/2) semiringProbability.zero
         else setWeight exSingleCache (1 : Int).natAbs semiringProbability.zero (1/2)) 2
        (some (exSingleAtom.length : Int))).map
        (fun result =>
          (semiringProbability.normalize result (1/2),
            setWeight
              (if 0 < (1 : Int) then
                setWeight exSingleCache (1 : Int).natAbs (1/2) semiringProbability.zero
               else setWeight exSingleCache (1 : Int).natAbs semiringProbability.zero (1/2))
              (1 : Int).natAbs (1/2) (1/2))) :=
  ⟨⟨by norm_num [getWeight, exSingleCache, extractWeights, getNode, exSingleAtom,
      semiringProbability],
    by norm_num [getWeight, exSingleCache, extractWeights, getNode, exSingleAtom,
      semiringProbability]⟩,
   evaluate_pin_uses_weight_pair semiringProbability exSingleAtom 2 (1/2) exSingleCache 1
     (1/2) (1/2)
     (by norm_num [getWeight, exSingleCache, extractWeights, getNode, exSingleAtom,
       semiringProbability])
     (by norm_num [getWeight, exSingleCache, extractWeights, getNode, exSingleAtom,
       semiringProbability])⟩

/-- Counterexample to claim C1 as stated: on the one-atom circuit with weight
`1/2` (where `Z = 1/2`), the source `evaluate` returns `1`, while the
procedure the claim describes — pinning the queried atom to the
unit/annihilator pair `(1, 0)` — returns `2`; the pinned pair is `(p, 0)`,
not `(unit, 0)`. -/
theorem evaluate_unit_pin_counterexample :
    (evaluate semiringProbability exSingleAtom 2 (1/2) exSingleCache 1).map Prod.fst =
      some (1 : ℚ) ∧
    (evaluateSpecWorded semiringProbability exSingleAtom 2 (1/2) exSingleCache 1).map Prod.fst =
      some (2 : ℚ) ∧ (1 : ℚ) ≠ 2 := by
  refine ⟨?_, ?_, by norm_num⟩ <;>
    norm_num [evaluate, evaluateSpecWorded, setValue, resetValue, getWeight, exSingleCache,
      extractWeights, getNode, exSingleAtom, seqOption, semiringProbability, setWeight,
      Option.bind]

/-- Claim C2: on the circuit with two atoms of probability weights `1/2` and
`2/5` and an AND root, with no evidence, the initialized evaluator has
`Z = 1/5` (i.e. `0.2`), and `evaluate` on the AND node returns
`0.2 / Z = 1`. -/
theorem and_circuit_wmc :
    (initEvaluator semiringProbability exAndCircuit [] 4).map Prod.snd = some (1/5 : ℚ) ∧
    ((initEvaluator semiringProbability exAndCircuit [] 4).bind
      (fun s => evaluate semiringProbability exAndCircuit 4 s.2 s.1 3)).map Prod.fst =
      some (1 : ℚ) := by
  constructor
  · norm_num [initEvaluator, getZ, getWeight, extractWeights, getNode, exAndCircuit, seqOption,
      semiringProbability]
  · norm_num [initEvaluator, getZ, evaluate, setValue, resetValue, getWeight, extractWeights,
      getNode, exAndCircuit, seqOption, semiringProbability, setWeight, Option.bind]

/-- Claim C3 (amended): during decoding, every `(name, label)` pair the
original names table associates with an `L` line's atom id is re-registered
against the positive newly created node reference for either literal
polarity: for a negative literal the stored line value is already the negated
reference and the re-registration negates it again, so the two sign
adjustments cancel. -/
theorem load_lit_name_reference {α : Type} (weights : Nat → Option α)
    (cnfNames : List (String × Int × String)) (st : LoadState α) (l : Int) :
    (loadLine weights cnfNames st (NNFLine.lit l)).map (fun s => s.names) =
      some (st.names ++ (namesInv cnfNames (l.natAbs : Int)).map
        (fun p => (p.1, ((st.nodes.length + 1 : Nat) : Int), p.2))) := by
  by_cases hl : l < 0 <;> simp [loadLine, hl]

/-- Counterexample to claim C3 as stated: decoding the single line `L -5`
against a names table binding `("q", "query")` to atom id 5 registers `"q"`
with the positive new reference `1`, not with the negated new reference
`-1`. -/
theorem load_lit_sign_counterexample :
    (loadNNF (α := ℚ) (fun _ => none) exCnfNames [NNFLine.lit (-5)]).map (fun s => s.names) =
      some [("q", 1, "query")] ∧
    (loadNNF (α := ℚ) (fun _ => none) exCnfNames [NNFLine.lit (-5)]).map (fun s => s.names) ≠
      some [("q", -1, "query")] := by
  decide

/-- Claim C4: if the external compiler invocation fails on the first `k < 10`
attempts and then succeeds, compilation returns the loaded compiled circuit
after `k + 1` invocations; if it fails on every attempt, compilation re-raises
the process failure after exactly 10 invocation attempts. -/
theorem compile_retry {β : Type} (outcome : Nat → Bool) (k : Nat) (loaded : β)
    (hk : k < 10) (hfail : ∀ i, i < k → outcome i = false) (hsucc : outcome k = true) :
    nnfCompile outcome = Except.ok (k + 1) ∧
    compileAndLoad outcome loaded = Except.ok loaded ∧
    (∀ o : Nat → Bool, (∀ i, o i = false) → nnfCompile o = Except.error 10 ∧
      compileAndLoad o loaded = Except.error 10) := by
  have hok : compileLoop outcome 10 0 = Except.ok (0 + k + 1) :=
    compileLoop_fail_then_ok outcome k 10 0 hk (by simpa using hfail) (by simpa using hsucc)
  have hok' : nnfCompile outcome = Except.ok (k + 1) := by
    rw [nnfCompile, hok]; congr 1; omega
  refine ⟨hok', by simp [compileAndLoad, hok'], ?_⟩
  intro o ho
  have herr : nnfCompile o = Except.error 10 := by
    have := compileLoop_all_fail o ho 10 0 (by omega)
    simpa [nnfCompile] using this
  exact ⟨herr, by simp [compileAndLoad, herr]⟩

/-- Witness for claim C4's theorem with a compiler that fails on its first two
invocations and succeeds on the third. -/
theorem compile_retry_witness :
    (2 < 10 ∧ (∀ i, i < 2 → (fun j => decide (2 ≤ j)) i = false) ∧
      (fun j => decide (2 ≤ j)) 2 = true) ∧
    (nnfCompile (fun j => decide (2 ≤ j)) = Except.ok 3 ∧
      compileAndLoad (fun j => decide (2 ≤ j)) "circuit" = Except.ok "circuit" ∧
      (∀ o : Nat → Bool, (∀ i, o i = false) → nnfCompile o = Except.error 10 ∧
        compileAndLoad o "circuit" = Except.error 10)) :=
  ⟨⟨by omega, fun i hi => by simp only [decide_eq_false_iff_not]; omega, by decide⟩,
   compile_retry (fun j => decide (2 ≤ j)) 2 "circuit" (by omega)
     (fun i hi => by simp only [decide_eq_false_iff_not]; omega) (by decide)⟩

/-- Claim C5: encoding a circuit of atoms, AND nodes and OR nodes emits, for
each AND node with id `i` and children `c1..ck`, the clause
`i :: [-c1, ..., -ck]` plus one clause `[-i, cj]` per child; for each OR node
the clause `-i :: [c1, ..., ck]` plus one clause `[i, -cj]` per child; atoms
contribute no clauses; and the header records the circuit length as the atom
count and the total number of emitted clauses, constraint-derived clauses
included. -/
theorem cnf_encoding_shapes (α : Type) (formula : List (NNode α))
    (constraints : List (List (List Int))) :
    (cnfCreateFrom formula constraints).atomCount = formula.length ∧
    (cnfCreateFrom formula constraints).clauseCount =
      (cnfCreateFrom formula constraints).clauses.length ∧
    (cnfCreateFrom formula constraints).clauses =
      formula.enum.flatMap (fun p =>
        match p.2 with
        | NNode.conj cs =>
          (((p.1 + 1 : Nat) : Int) :: cs.map (fun x => -x)) ::
            cs.map (fun x => [-((p.1 + 1 : Nat) : Int), x])
        | NNode.disj cs =>
          ((-((p.1 + 1 : Nat) : Int)) :: cs) :: cs.map (fun x => [((p.1 + 1 : Nat) : Int), -x])
        | NNode.atom _ _ => []) ++ constraints.flatMap id := by
  refine ⟨rfl, rfl, ?_⟩
  rw [cnfCreateFrom_clauses]
  unfold nodeDerivedClauses constraintDerivedClauses
  congr 1

/-- Claim C6 (amended): in the encoded clause text, the node-derived clauses
come first — AND-node and OR-node clauses interleaved in circuit construction
order, not grouped by node type — followed by all constraint-derived
clauses. -/
theorem cnf_clause_groups (α : Type) (formula : List (NNode α))
    (constraints : List (List (List Int))) :
    (cnfCreateFrom formula constraints).clauses =
      nodeDerivedClauses formula ++ constraintDerivedClauses constraints :=
  cnfCreateFrom_clauses formula constraints

/-- Counterexample to claim C6 as stated: on a circuit whose OR node precedes
its AND node, the emitted clause list starts with the OR node's clauses, so
AND-node clauses do not all precede OR-node clauses. -/
theorem cnf_clause_order_counterexample :
    (cnfCreateFrom exOrBeforeAnd []).clauses =
      [[-2, 1], [2, -1], [3, -1, -2], [-3, 1], [-3, 2]] ∧
    specWordedClauseOrder exOrBeforeAnd [] =
      [[3, -1, -2], [-3, 1], [-3, 2], [-2, 1], [2, -1]] ∧
    (cnfCreateFrom exOrBeforeAnd []).clauses ≠ specWordedClauseOrder exOrBeforeAnd [] := by
  decide

/-- Claim C7 (amended): for both provided semirings,
`sum(a, annihilator()) = a`, `product(a, unit()) = a` and
`product(a, annihilator()) = annihilator()` hold for every carrier value, and
`sum` and `product` are commutative for the probability semiring (for the
symbolic semiring the two operations are not commutative as string values). -/
theorem semiring_identities :
    (∀ a b : ℚ,
      semiringProbability.plus a semiringProbability.zero = a ∧
      semiringProbability.times a semiringProbability.one = a ∧
      semiringProbability.times a semiringProbability.zero = semiringProbability.zero ∧
      semiringProbability.plus a b = semiringProbability.plus b a ∧
      semiringProbability.times a b = semiringProbability.times b a) ∧
    (∀ a : String,
      semiringSymbolic.plus a semiringSymbolic.zero = a ∧
      semiringSymbolic.times a semiringSymbolic.one = a ∧
      semiringSymbolic.times a semiringSymbolic.zero = semiringSymbolic.zero) := by
  constructor
  · intro a b
    refine ⟨?_, ?_, ?_, ?_, ?_⟩ <;> simp [semiringProbability] <;> ring
  · intro a
    refine ⟨?_, ?_, ?_⟩
    · by_cases h : a = "0" <;> simp [semiringSymbolic, symPlus, h]
    · by_cases h0 : a = "0" <;> by_cases h1 : a = "1" <;>
        simp [semiringSymbolic, symTimes, h0, h1]
    · simp [semiringSymbolic, symTimes]

/-- Counterexample to claim C7 as stated: the symbolic semiring's `sum` and
`product` are not commutative — `plus "2" "3"` is the string `"(2 + 3)"`
while `plus "3" "2"` is `"(3 + 2)"`, and similarly for `times`. -/
theorem semiring_commutativity_counterexample :
    semiringSymbolic.plus "2" "3" = "(2 + 3)" ∧
    semiringSymbolic.plus "3" "2" = "(3 + 2)" ∧
    semiringSymbolic.plus "2" "3" ≠ semiringSymbolic.plus "3" "2" ∧
    semiringSymbolic.times "2" "3" ≠ semiringSymbolic.times "3" "2" := by
  decide

/-- Claim C8 (code bug): calling the top-level `evaluate` with an explicit
index reaches `return evaluator.evaluate(node)` where the local `node` is
unbound (the parameter is `index`), so the call fails with `UnboundLocalError`
instead of returning the evaluator's value; the same circuit evaluated
through the no-index query sweep returns the value `1` for its query. -/
theorem nnf_evaluate_index_bug :
    nnfEvaluate exAndCircuit [("q", 3, "query")] 4 (some 3) =
      Except.error "UnboundLocalError: local variable node referenced before assignment" ∧
    nnfEvaluate exAndCircuit [("q", 3, "query")] 4 none =
      Except.ok (EvalResult.table [("q", 1)]) := by
  constructor <;>
    norm_num [nnfEvaluate, initEvaluator, getZ, evaluate, setValue, resetValue, getWeight,
      extractWeights, getNode, exAndCircuit, seqOption, semiringProbability, setWeight,
      evidenceRefs, getNames, epsilonQ, Option.bind, List.foldlM, List.filterMap]

/-- Claim C9 (amended): the recursive weight computation is a pure function
of the cache and writes nothing; an `evaluate` call changes the cache only at
the queried node's id, leaving there the `(p, n)` pair it read — in
particular, when the queried node's entry already was `(p, n)` the cache is
exactly as before, but querying an internal AND/OR node leaves a new entry
for that internal node. -/
theorem evaluate_cache_frame {α : Type} (sr : SemiringOps α) (nnf : List (NNode α))
    (fuel : Nat) (Z : α) (probs : Cache α) (node : Int) (p n : α) (m : Nat)
    (hp : getWeight sr nnf probs fuel (some (node.natAbs : Int)) = some p)
    (hn : getWeight sr nnf probs fuel (some (-(node.natAbs : Int))) = some n) :
    (evaluate sr nnf fuel Z probs node).map (fun r => r.2 m) =
      (evaluate sr nnf fuel Z probs node).map (fun _ => setWeight probs node.natAbs p n m) := by
  rw [evaluate_eq_pin_restore sr nnf fuel Z probs node p n hp hn]
  cases getWeight sr nnf
      (if 0 < node then setWeight probs node.natAbs p sr.zero
       else setWeight probs node.natAbs sr.zero n) fuel (some (nnf.length : Int)) with
  | none => rfl
  | some r =>
    simp only [Option.map_some']
    congr 1
    by_cases hm : m = node.natAbs
    · simp [setWeight, hm]
    · by_cases h : 0 < node <;> simp [setWeight, hm, h]

/-- Witness for claim C9's theorem on the two-atom AND circuit, querying the
internal AND node 3 and observing the cache at id 3. -/
theorem evaluate_cache_frame_witness :
    (getWeight semiringProbability exAndCircuit exAndCache 4
        (some (((3 : Int).natAbs : Nat) : Int)) = some (1/5 : ℚ) ∧
      getWeight semiringProbability exAndCircuit exAndCache 4
        (some (-(((3 : Int).natAbs : Nat) : Int))) = some (4/5 : ℚ)) ∧
    (evaluate semiringProbability exAndCircuit 4 (1/5) exAndCache 3).map (fun r => r.2 3) =
      (evaluate semiringProbability exAndCircuit 4 (1/5) exAndCache 3).map
        (fun _ => setWeight exAndCache (3 : Int).natAbs (1/5) (4/5) 3) :=
  ⟨⟨by norm_num [getWeight, exAndCache, extractWeights, getNode, exAndCircuit, seqOption,
      semiringProbability],
    by norm_num [getWeight, exAndCache, extractWeights, getNode, exAndCircuit, seqOption,
      semiringProbability]⟩,
   evaluate_cache_frame semiringProbability exAndCircuit 4 (1/5) exAndCache 3 (1/5) (4/5) 3
     (by norm_num [getWeight, exAndCache, extractWeights, getNode, exAndCircuit, seqOption,
       semiringProbability])
     (by norm_num [getWeight, exAndCache, extractWeights, getNode, exAndCircuit, seqOption,
       semiringProbability])⟩

/-- Counterexample to claim C9 as stated: on the two-atom AND circuit the
initialized cache has no entry for the internal AND node 3, yet after
`evaluate` on node 3 the cache holds the entry `(1/5, 4/5)` for it — an
internal-node entry was written. -/
theorem evaluate_internal_entry_counterexample :
    getNode exAndCircuit 3 = some (NNode.conj [1, 2]) ∧
    exAndCache 3 = none ∧
    ((initEvaluator semiringProbability exAndCircuit [] 4).bind
      (fun s => evaluate semiringProbability exAndCircuit 4 s.2 s.1 3)).map (fun r => r.2 3) =
      some (some (1/5, 4/5)) := by
  refine ⟨by decide, ?_, ?_⟩
  · norm_num [exAndCache, extractWeights, getNode, exAndCircuit]
  · norm_num [initEvaluator, getZ, evaluate, setValue, resetValue, getWeight, extractWeights,
      getNode, exAndCircuit, seqOption, semiringProbability, setWeight, Option.bind]

/-- Claim C10: if the source object is already an instance of the target
kind, `convert` returns the source object itself with no transformation step
applied; in particular `NNF.createFrom` on an object that is already a
compiled circuit returns that same object. -/
theorem convert_instance_identity {Obj Kind : Type} [DecidableEq Kind]
    (sys : ConvSystem Obj Kind) (fuel : Nat) (src : Obj) (target : Kind)
    (h : sys.isInstance src target = true) {α : Type}
    (groundFn : Nat → List (NNode α) × List (List (List Int)))
    (compileFn : CNFData → List (NNode α)) (ns : List (NNode α)) :
    convert sys fuel src target = Except.ok src ∧
    nnfCreateFrom groundFn compileFn (Convertible.nnfObj ns) = ns := by
  constructor
  · have hfp : findPaths sys fuel src target [] = [(target, [])] := by
      rw [findPaths.eq_def]
      simp [h]
    rw [convert, hfp]
    rfl
  · rfl

/-- Witness for claim C10's theorem on the trivial conversion system and the
empty compiled circuit. -/
theorem convert_instance_identity_witness :
    trivialConvSystem.isInstance 5 () = true ∧
    (convert trivialConvSystem 0 5 () = Except.ok 5 ∧
      nnfCreateFrom (fun _ => ([], [])) (fun _ => [])
        (Convertible.nnfObj ([] : List (NNode ℚ))) = []) :=
  ⟨rfl, convert_instance_identity trivialConvSystem 0 5 () rfl (fun _ => ([], []))
    (fun _ => []) []⟩

end ProbLog
